import Mathlib

/-!
# Verification of the robust-variance estimator of `Slides_Lecture_2.ipynb`

A shallow embedding over `ℚ` of the heteroskedasticity-robust
variance-covariance benchmark in the notebook: the four computation
variants (`opt = 1, 2, 3, 4` in the benchmark cell), the sandwich step
`sig_B`, the data generator `lpm`, and the benchmark replication loop
with its seeding discipline.  Machine floating point is modelled by
exact rational arithmetic; the notebook's shape errors (numpy
`IndexError` / `ValueError` / `LinAlgError`) are modelled by `Except`.
-/

open Matrix

/-- Design matrices: `n` observations (rows) by `K` covariates (columns). -/
abbrev Mat (n K : ℕ) := Matrix (Fin n) (Fin K) ℚ

/-- The four algorithm variants dispatched on `opt` in the benchmark cell. -/
inductive Strategy
  /-- Option `opt = 1`: element-by-element accumulation. -/
  | elementwiseAccumulation
  /-- Option `opt = 2`: dense `n×n` diagonal weight matrix. -/
  | denseWeightedProduct
  /-- Option `opt = 3`: sparse diagonal weight matrix. -/
  | sparseWeightedProduct
  /-- Option `opt = 4`: the "vectorized" variant. -/
  | elementwiseScaledCrossProduct
deriving DecidableEq

/-- Row outer product `np.matrix(X[i,]).T @ np.matrix(X[i,])`: the outer product of row `x`
with itself. -/
def rowOuter {K : ℕ} (x : Fin K → ℚ) : Matrix (Fin K) (Fin K) ℚ :=
  Matrix.of fun j k => x j * x k

/-- Body of `opt = 1`: `for i in range(n): XXe2 += e_hat[i]**2 * outer(X[i], X[i])`,
started from a fresh zero matrix. -/
def middleOpt1 {n K : ℕ} (X : Mat n K) (e : Fin n → ℚ) :
    Matrix (Fin K) (Fin K) ℚ :=
  ∑ i : Fin n, (e i) ^ 2 • rowOuter (X i)

/-- Body of `opt = 2`: build the dense `n×n` diagonal `e_hat2_M` with
`np.fill_diagonal(e_hat2_M, e_hat**2)` and compute `X.T @ e_hat2_M @ X`. -/
def middleOpt2 {n K : ℕ} (X : Mat n K) (e : Fin n → ℚ) :
    Matrix (Fin K) (Fin K) ℚ :=
  Xᵀ * Matrix.diagonal (fun i => (e i) ^ 2) * X

/-- Body of `opt = 3`: `X.T @ diags(e_hat**2) @ X`; sparse-aware multiplication
by the diagonal is column scaling of `X.T`. -/
def middleOpt3 {n K : ℕ} (X : Mat n K) (e : Fin n → ℚ) :
    Matrix (Fin K) (Fin K) ℚ :=
  (Matrix.of fun (j : Fin K) (i : Fin n) => X i j * (e i) ^ 2) * X

/-- The column `np.matrix(X).T * np.matrix(e_hat.reshape((-1, 1)))` of the
benchmark cell's `opt = 4`.  With `np.matrix` operands, `*` is MATRIX
multiplication, so this is the `K×1` product `Xᵀ·e`, not a row scaling. -/
def xeCol {n K : ℕ} (X : Mat n K) (e : Fin n → ℚ) :
    Matrix (Fin K) (Fin 1) ℚ :=
  Xᵀ * Matrix.of fun i (_ : Fin 1) => e i

/-- Body of `opt = 4` in the benchmark cell: `Xe = np.matrix(X).T * np.matrix(e_hat)`
(a matrix product) followed by `XXe2 = Xe @ Xe.T`. -/
def middleOpt4 {n K : ℕ} (X : Mat n K) (e : Fin n → ℚ) :
    Matrix (Fin K) (Fin K) ℚ :=
  xeCol X e * (xeCol X e)ᵀ

/-- Body of `opt = 4` in the real-data cell: `Xe = X * e_hat[:, np.newaxis]`
(elementwise row scaling) followed by `XXe2 = Xe.T @ Xe`. -/
def middleOpt4Real {n K : ℕ} (X : Mat n K) (e : Fin n → ℚ) :
    Matrix (Fin K) (Fin K) ℚ :=
  (Matrix.of fun i j => X i j * e i)ᵀ * Matrix.of fun i j => X i j * e i

/-- The strategy dispatch of the benchmark cell: one fresh middle-term
computation on `(X, e_hat)`. -/
def computeMiddle {n K : ℕ} (X : Mat n K) (e : Fin n → ℚ) :
    Strategy → Matrix (Fin K) (Fin K) ℚ
  | .elementwiseAccumulation => middleOpt1 X e
  | .denseWeightedProduct => middleOpt2 X e
  | .sparseWeightedProduct => middleOpt3 X e
  | .elementwiseScaledCrossProduct => middleOpt4 X e

-- concrete inputs exercising the opt-4 divergence
def Xc1 : Mat 2 2 := !![1, 0; 0, 1]

def ec1 : Fin 2 → ℚ := ![1, 2]

theorem middleOpt1_apply {n K : ℕ} (X : Mat n K) (e : Fin n → ℚ) (j k : Fin K) :
    middleOpt1 X e j k = ∑ i : Fin n, (e i) ^ 2 * (X i j * X i k) := by
  simp [middleOpt1, rowOuter, Matrix.sum_apply, Matrix.smul_apply, smul_eq_mul]

theorem middleOpt2_eq_middleOpt1 {n K : ℕ} (X : Mat n K) (e : Fin n → ℚ) :
    middleOpt2 X e = middleOpt1 X e := by
  ext j k
  rw [middleOpt1_apply]
  simp only [middleOpt2, Matrix.mul_apply, Matrix.diagonal_apply,
    Matrix.transpose_apply, ite_mul, mul_ite, zero_mul, mul_zero,
    Finset.sum_ite_eq, Finset.sum_ite_eq', Finset.mem_univ, if_true]
  exact Finset.sum_congr rfl fun i _ => by ring

theorem middleOpt3_eq_middleOpt1 {n K : ℕ} (X : Mat n K) (e : Fin n → ℚ) :
    middleOpt3 X e = middleOpt1 X e := by
  ext j k
  rw [middleOpt1_apply]
  simp only [middleOpt3, Matrix.mul_apply, Matrix.of_apply]
  exact Finset.sum_congr rfl fun i _ => by ring

/-- The real-data cell's vectorized variant agrees with the element-by-element
accumulation on every input: the intended mathematical identity
`sum_i (e_i * x_i)(e_i * x_i)' = sum_i e_i^2 * x_i x_i'`. -/
theorem middleOpt4Real_eq_middleOpt1 {n K : ℕ} (X : Mat n K) (e : Fin n → ℚ) :
    middleOpt4Real X e = middleOpt1 X e := by
  ext j k
  rw [middleOpt1_apply]
  simp only [middleOpt4Real, Matrix.mul_apply, Matrix.of_apply,
    Matrix.transpose_apply]
  exact Finset.sum_congr rfl fun i _ => by ring

/-- The benchmark cell's `opt = 4` computes `(Xᵀe)(Xᵀe)ᵀ`; when the residual
vector is orthogonal to the columns of `X` (as OLS residuals are), this is the
zero matrix, not the middle term. -/
theorem middleOpt4_eq_zero_of_orthogonal {n K : ℕ} (X : Mat n K)
    (e : Fin n → ℚ) (h : ∀ j : Fin K, ∑ i : Fin n, X i j * e i = 0) :
    middleOpt4 X e = 0 := by
  ext j k
  simp only [middleOpt4, xeCol, Matrix.mul_apply, Matrix.transpose_apply,
    Matrix.of_apply, Fin.sum_univ_one, Matrix.zero_apply]
  rw [h j, h k, zero_mul]

example : computeMiddle Xc1 ec1 Strategy.elementwiseAccumulation =
    !![1, 0; 0, 4] := by
  ext i j
  fin_cases i <;> fin_cases j <;>
    simp [computeMiddle, middleOpt1, rowOuter, Xc1, ec1, Fin.sum_univ_two,
      Matrix.sum_apply] <;> norm_num

example : computeMiddle Xc1 ec1 Strategy.denseWeightedProduct =
    !![1, 0; 0, 4] := by
  ext i j
  fin_cases i <;> fin_cases j <;>
    simp [computeMiddle, middleOpt2, Xc1, ec1, Fin.sum_univ_two,
      Matrix.mul_apply, Matrix.diagonal_apply, Matrix.transpose_apply,
      Matrix.vecHead, Matrix.vecTail] <;> norm_num

example : computeMiddle Xc1 ec1 Strategy.sparseWeightedProduct =
    !![1, 0; 0, 4] := by
  ext i j
  fin_cases i <;> fin_cases j <;>
    simp [computeMiddle, middleOpt3, Xc1, ec1, Fin.sum_univ_two,
      Matrix.mul_apply] <;> norm_num

example : computeMiddle Xc1 ec1 Strategy.elementwiseScaledCrossProduct =
    !![1, 2; 2, 4] := by
  ext i j
  fin_cases i <;> fin_cases j <;>
    simp [computeMiddle, middleOpt4, xeCol, Xc1, ec1, Fin.sum_univ_two,
      Matrix.mul_apply, Matrix.transpose_apply, Matrix.vecHead,
      Matrix.vecTail] <;> norm_num

-- concrete inputs for the missing 1/n normalization
def Xc3 : Mat 2 1 := !![1; 1]

def ec3 : Fin 2 → ℚ := ![1, 1]

/-- C1 (code bug in the benchmark cell's `opt = 4`): the four strategies do
NOT all agree.  At `X = I₂`, `e = (1, 2)`, strategies 1-3 agree but
the benchmark cell's `opt = 4` — `np.matrix(X).T * np.matrix(e_hat)`, a
matrix product rather than the intended row scaling — returns `(Xᵀe)(Xᵀe)ᵀ`,
which differs in the `(0,1)` entry (`2` instead of `0`). -/
theorem c1_strategy4_diverges :
    computeMiddle Xc1 ec1 Strategy.elementwiseScaledCrossProduct ≠
        computeMiddle Xc1 ec1 Strategy.elementwiseAccumulation ∧
    computeMiddle Xc1 ec1 Strategy.denseWeightedProduct =
        computeMiddle Xc1 ec1 Strategy.elementwiseAccumulation ∧
    computeMiddle Xc1 ec1 Strategy.sparseWeightedProduct =
        computeMiddle Xc1 ec1 Strategy.elementwiseAccumulation := by
  refine ⟨fun h => ?_, middleOpt2_eq_middleOpt1 Xc1 ec1,
    middleOpt3_eq_middleOpt1 Xc1 ec1⟩
  have h01 := congrFun (congrFun h 0) 1
  simp [computeMiddle, middleOpt4, middleOpt1, xeCol, rowOuter, Xc1, ec1,
    Matrix.mul_apply, Matrix.transpose_apply, Matrix.sum_apply,
    Matrix.smul_apply, Fin.sum_univ_two, Matrix.vecHead, Matrix.vecTail]
    at h01

/-- C3 (counterexample): at `X = (1; 1)`, `e = (1, 1)`, `n = 2`, the code
returns `2`, not the claimed `(1/n) * sum = 1`: no `1/n` factor is applied
anywhere in the notebook. -/
theorem c3_counterexample :
    computeMiddle Xc3 ec3 Strategy.elementwiseAccumulation ≠
      ((1 : ℚ) / 2) • ∑ i : Fin 2, (ec3 i) ^ 2 • rowOuter (Xc3 i) := by
  intro h
  have h00 := congrFun (congrFun h 0) 0
  simp [computeMiddle, middleOpt1, rowOuter, Xc3, ec3, Matrix.sum_apply,
    Matrix.smul_apply, Fin.sum_univ_two] at h00


/-- C3 (amended): under the first three strategies `computeMiddle` returns
the UNnormalized weighted outer-product sum `sum_i e_i^2 * x_i x_i'`,
with no `1/n` factor. -/
theorem c3_middle_unnormalized {n K : ℕ} (X : Mat n K) (e : Fin n → ℚ) :
    computeMiddle X e Strategy.elementwiseAccumulation =
        (∑ i : Fin n, (e i) ^ 2 • rowOuter (X i)) ∧
    computeMiddle X e Strategy.denseWeightedProduct =
        (∑ i : Fin n, (e i) ^ 2 • rowOuter (X i)) ∧
    computeMiddle X e Strategy.sparseWeightedProduct =
        (∑ i : Fin n, (e i) ^ 2 • rowOuter (X i)) :=
  ⟨rfl, middleOpt2_eq_middleOpt1 X e, middleOpt3_eq_middleOpt1 X e⟩

theorem middleOpt1_symmetric {n K : ℕ} (X : Mat n K) (e : Fin n → ℚ) :
    (middleOpt1 X e)ᵀ = middleOpt1 X e := by
  ext j k
  rw [Matrix.transpose_apply, middleOpt1_apply, middleOpt1_apply]
  exact Finset.sum_congr rfl fun i _ => by ring

/-- C6: under every strategy the returned matrix is symmetric (exactly, in
exact arithmetic). -/
theorem c6_middle_symmetric {n K : ℕ} (X : Mat n K) (e : Fin n → ℚ)
    (s : Strategy) : (computeMiddle X e s)ᵀ = computeMiddle X e s := by
  cases s
  case elementwiseAccumulation => exact middleOpt1_symmetric X e
  case denseWeightedProduct =>
    show (middleOpt2 X e)ᵀ = middleOpt2 X e
    rw [middleOpt2_eq_middleOpt1]
    exact middleOpt1_symmetric X e
  case sparseWeightedProduct =>
    show (middleOpt3 X e)ᵀ = middleOpt3 X e
    rw [middleOpt3_eq_middleOpt1]
    exact middleOpt1_symmetric X e
  case elementwiseScaledCrossProduct =>
    show (middleOpt4 X e)ᵀ = middleOpt4 X e
    rw [middleOpt4, Matrix.transpose_mul, Matrix.transpose_transpose]

theorem middleOpt1_scale {n K : ℕ} (X : Mat n K) (e : Fin n → ℚ) (c : ℚ) :
    middleOpt1 X (fun i => c * e i) = c ^ 2 • middleOpt1 X e := by
  simp only [middleOpt1, mul_pow]
  rw [Finset.smul_sum]
  exact Finset.sum_congr rfl fun i _ => MulAction.mul_smul _ _ _

theorem xeCol_scale {n K : ℕ} (X : Mat n K) (e : Fin n → ℚ) (c : ℚ) :
    xeCol X (fun i => c * e i) = c • xeCol X e := by
  ext j l
  simp only [xeCol, Matrix.mul_apply, Matrix.of_apply, Matrix.smul_apply,
    Matrix.transpose_apply, smul_eq_mul, Finset.mul_sum]
  exact Finset.sum_congr rfl fun i _ => by ring

/-- C8: scaling every residual by `c` scales the middle term by `c^2`, under
every strategy (the buggy fourth one included). -/
theorem c8_residual_scaling {n K : ℕ} (X : Mat n K) (e : Fin n → ℚ) (c : ℚ)
    (s : Strategy) :
    computeMiddle X (fun i => c * e i) s = c ^ 2 • computeMiddle X e s := by
  cases s
  case elementwiseAccumulation => exact middleOpt1_scale X e c
  case denseWeightedProduct =>
    show middleOpt2 X (fun i => c * e i) = c ^ 2 • middleOpt2 X e
    rw [middleOpt2_eq_middleOpt1, middleOpt2_eq_middleOpt1]
    exact middleOpt1_scale X e c
  case sparseWeightedProduct =>
    show middleOpt3 X (fun i => c * e i) = c ^ 2 • middleOpt3 X e
    rw [middleOpt3_eq_middleOpt1, middleOpt3_eq_middleOpt1]
    exact middleOpt1_scale X e c
  case elementwiseScaledCrossProduct =>
    show middleOpt4 X (fun i => c * e i) = c ^ 2 • middleOpt4 X e
    rw [middleOpt4, middleOpt4, xeCol_scale, Matrix.transpose_smul,
      Matrix.smul_mul, Matrix.mul_smul, smul_smul, ← pow_two]

/-- The error taxonomy: numpy's shape errors (`IndexError` / `ValueError`)
are `dimensionMismatch`; `np.linalg.LinAlgError` is `singularMatrix`. -/
inductive NumErr
  | dimensionMismatch
  | singularMatrix
deriving DecidableEq

/-- The sandwich step of the benchmark cell:
`XX_inv = np.linalg.inv(X.T @ X); sig_B = XX_inv @ XXe2 @ XX_inv`.
`np.linalg.inv` raises `LinAlgError` exactly on a singular input, modelled
by the determinant test; on a nonsingular input the inverse is
`det⁻¹ • adjugate`.  The middle term is computed first and is total. -/
def computeSandwichE {n K : ℕ} (X : Mat n K) (e : Fin n → ℚ) (s : Strategy) :
    Except NumErr (Matrix (Fin K) (Fin K) ℚ) :=
  let XXe2 := computeMiddle X e s
  if (Xᵀ * X).det = 0 then .error .singularMatrix
  else
    let XXinv := (Xᵀ * X).det⁻¹ • (Xᵀ * X).adjugate
    .ok (XXinv * XXe2 * XXinv)

-- a design matrix with two identical columns, making `X'X` singular
def Xdup : Mat 2 2 := !![1, 1; 2, 2]

def edup : Fin 2 → ℚ := ![1, 1]

/-- C5: whenever `X'X` is singular, `computeSandwichE` fails with
`singularMatrix`, under every strategy; the failure comes from the inverse
step (`computeMiddle` itself is a total function and has already been
computed when the inverse is taken). -/
theorem c5_singular_propagation {n K : ℕ} (X : Mat n K) (e : Fin n → ℚ)
    (s : Strategy) (h : (Xᵀ * X).det = 0) :
    computeSandwichE X e s = Except.error NumErr.singularMatrix := by
  simp [computeSandwichE, h]

/-- C5 witness: `X = (1 1; 2 2)` has duplicated columns, `X'X = (5 5; 5 5)`
is singular, and the sandwich computation fails with `singularMatrix`. -/
theorem c5_witness :
    (Xdupᵀ * Xdup).det = 0 ∧
      computeSandwichE Xdup edup Strategy.elementwiseAccumulation =
        Except.error NumErr.singularMatrix := by
  have hg : Xdupᵀ * Xdup = !![5, 5; 5, 5] := by
    ext i j
    fin_cases i <;> fin_cases j <;>
      simp [Xdup, Matrix.mul_apply, Matrix.transpose_apply, Fin.sum_univ_two,
        Matrix.vecHead, Matrix.vecTail] <;> norm_num
  have h : (Xdupᵀ * Xdup).det = 0 := by
    rw [hg, Matrix.det_fin_two]
    norm_num
  exact ⟨h, c5_singular_propagation Xdup edup Strategy.elementwiseAccumulation h⟩

/-- A joint reordering of the observations: row permutation of the design
matrix. -/
def permRows {n K : ℕ} (σ : Equiv.Perm (Fin n)) (X : Mat n K) : Mat n K :=
  Matrix.of fun i j => X (σ i) j

/-- The matching permutation of the residual vector. -/
def permVec {n : ℕ} (σ : Equiv.Perm (Fin n)) (e : Fin n → ℚ) : Fin n → ℚ :=
  fun i => e (σ i)

theorem permRows_gram {n K : ℕ} (σ : Equiv.Perm (Fin n)) (X : Mat n K) :
    (permRows σ X)ᵀ * permRows σ X = Xᵀ * X := by
  ext j k
  simp only [Matrix.mul_apply, Matrix.transpose_apply, permRows,
    Matrix.of_apply]
  exact Equiv.sum_comp σ fun i => X i j * X i k

theorem middleOpt1_perm {n K : ℕ} (σ : Equiv.Perm (Fin n)) (X : Mat n K)
    (e : Fin n → ℚ) : middleOpt1 (permRows σ X) (permVec σ e) = middleOpt1 X e := by
  simp only [middleOpt1, permVec, permRows]
  exact Equiv.sum_comp σ fun i => (e i) ^ 2 • rowOuter (X i)

theorem xeCol_perm {n K : ℕ} (σ : Equiv.Perm (Fin n)) (X : Mat n K)
    (e : Fin n → ℚ) : xeCol (permRows σ X) (permVec σ e) = xeCol X e := by
  ext j l
  simp only [xeCol, Matrix.mul_apply, Matrix.of_apply, Matrix.transpose_apply,
    permRows, permVec]
  exact Equiv.sum_comp σ fun i => X i j * e i

theorem computeMiddle_perm {n K : ℕ} (σ : Equiv.Perm (Fin n)) (X : Mat n K)
    (e : Fin n → ℚ) (s : Strategy) :
    computeMiddle (permRows σ X) (permVec σ e) s = computeMiddle X e s := by
  cases s
  case elementwiseAccumulation => exact middleOpt1_perm σ X e
  case denseWeightedProduct =>
    show middleOpt2 _ _ = middleOpt2 X e
    rw [middleOpt2_eq_middleOpt1, middleOpt2_eq_middleOpt1]
    exact middleOpt1_perm σ X e
  case sparseWeightedProduct =>
    show middleOpt3 _ _ = middleOpt3 X e
    rw [middleOpt3_eq_middleOpt1, middleOpt3_eq_middleOpt1]
    exact middleOpt1_perm σ X e
  case elementwiseScaledCrossProduct =>
    show middleOpt4 _ _ = middleOpt4 X e
    rw [middleOpt4, middleOpt4, xeCol_perm]

/-- C7: the sandwich computation is invariant under any joint permutation of
the rows of `X` and the entries of the residual vector, under every
strategy. -/
theorem c7_sandwich_permutation_invariant {n K : ℕ} (σ : Equiv.Perm (Fin n))
    (X : Mat n K) (e : Fin n → ℚ) (s : Strategy) :
    computeSandwichE (permRows σ X) (permVec σ e) s =
      computeSandwichE X e s := by
  simp only [computeSandwichE, permRows_gram, computeMiddle_perm]

/-- One `XXe2` update of the benchmark cell's replication loop: under
`opt = 1` the loop body is `XXe2 += ...` on the persisting accumulator;
under the other options `XXe2` is overwritten from the fresh data. -/
def benchStep {n K : ℕ} (s : Strategy) (acc : Matrix (Fin K) (Fin K) ℚ)
    (X : Mat n K) (e : Fin n → ℚ) : Matrix (Fin K) (Fin K) ℚ :=
  match s with
  | .elementwiseAccumulation => acc + middleOpt1 X e
  | .denseWeightedProduct => middleOpt2 X e
  | .sparseWeightedProduct => middleOpt3 X e
  | .elementwiseScaledCrossProduct => middleOpt4 X e

/-- The sequence of `XXe2` values over the replications of the benchmark
loop, starting from the accumulator `acc` (`np.zeros((2, 2))` in the cell,
initialized once per `opt`, OUTSIDE the replication loop). -/
def benchMiddles {n K : ℕ} (s : Strategy) (acc : Matrix (Fin K) (Fin K) ℚ) :
    List (Mat n K × (Fin n → ℚ)) → List (Matrix (Fin K) (Fin K) ℚ)
  | [] => []
  | p :: rest =>
      benchStep s acc p.1 p.2 :: benchMiddles s (benchStep s acc p.1 p.2) rest

def pOne : Mat 1 1 × (Fin 1 → ℚ) := (!![1], ![1])

def pZero : Mat 1 1 × (Fin 1 → ℚ) := (!![0], ![0])

/-- C2 (code bug for `opt = 1`): with two replications that differ only in
the FIRST replication's data, the SECOND replication's `XXe2` differs under
`elementwiseAccumulation` (the accumulator carries over), while under
`denseWeightedProduct` it is the same. -/
theorem c2_accumulator_carryover :
    (benchMiddles Strategy.elementwiseAccumulation 0 [pOne, pOne]).getD 1 0 ≠
        (benchMiddles Strategy.elementwiseAccumulation 0 [pZero, pOne]).getD 1 0 ∧
    (benchMiddles Strategy.denseWeightedProduct 0 [pOne, pOne]).getD 1 0 =
        (benchMiddles Strategy.denseWeightedProduct 0 [pZero, pOne]).getD 1 0 := by
  refine ⟨fun h => ?_, rfl⟩
  have h00 := congrFun (congrFun h 0) 0
  simp [benchMiddles, benchStep, middleOpt1, rowOuter, pOne, pZero,
    Matrix.sum_apply, Matrix.smul_apply, Matrix.add_apply,
    Fin.sum_univ_one] at h00

/-- The process-global numpy RNG, modelled abstractly: after
`np.random.seed(k)` the stream of subsequent draws is
`gen k 0, gen k 1, ...` for an arbitrary fixed draw function `gen`. -/
structure RState where
  seed : ℕ
  idx : ℕ

/-- Model of `np.random.seed(k)`: reset the global RNG state. -/
def seedR (k : ℕ) : RState := ⟨k, 0⟩

/-- Model of `np.random.normal(size=m)`: a block of `m` draws advancing the state. -/
def drawBlock (gen : ℕ → ℕ → ℚ) (m : ℕ) (st : RState) :
    (Fin m → ℚ) × RState :=
  (fun i => gen st.seed (st.idx + i), ⟨st.seed, st.idx + m⟩)

/-- The coefficient vector `b0 = np.array([-1, 1])`. -/
def b0 : Fin 2 → ℚ := ![-1, 1]

/-- The data generator `lpm(n)` threaded through the global RNG state: draw
`e`, draw the non-intercept column, build `X` (intercept column of ones) and
the boolean outcome `Y` cast to `0/1`, fit OLS, and return `(X, e_hat)`
together with the post-call RNG state. -/
def lpmS (gen : ℕ → ℕ → ℚ) (n : ℕ) (st : RState) :
    (Mat n 2 × (Fin n → ℚ)) × RState :=
  let r1 := drawBlock gen n st
  let r2 := drawBlock gen n r1.2
  let X : Mat n 2 := Matrix.of fun i j => if j = 0 then 1 else r2.1 i
  let Y : Fin n → ℚ := fun i => if 0 ≤ (X *ᵥ b0) i + r1.1 i then 1 else 0
  let bhat : Fin 2 → ℚ := ((Xᵀ * X).det⁻¹ • (Xᵀ * X).adjugate) *ᵥ (Xᵀ *ᵥ Y)
  ((X, fun i => Y i - (X *ᵥ bhat) i), r2.2)

/-- One `opt` pass of the benchmark harness, replications counted from
`iter0`: each iteration reseeds the global RNG with the replication index
(`np.random.seed(iter)`), generates fresh data with `lpm(n)`, and updates
`XXe2` by `benchStep`.  Records each replication's `(X, e_hat)` pair and
post-update `XXe2`, and returns the RNG state left for the next pass. -/
def benchPassAux (gen : ℕ → ℕ → ℚ) (n : ℕ) (s : Strategy) :
    ℕ → ℕ → RState → Matrix (Fin 2) (Fin 2) ℚ →
    List ((Mat n 2 × (Fin n → ℚ)) × Matrix (Fin 2) (Fin 2) ℚ) × RState
  | 0, _, st, _ => ([], st)
  | numLeft + 1, iter0, _, acc =>
      let d := lpmS gen n (seedR iter0)
      let acc2 := benchStep s acc d.1.1 d.1.2
      let rest := benchPassAux gen n s numLeft (iter0 + 1) d.2 acc2
      ((d.1, acc2) :: rest.1, rest.2)

theorem benchPassAux_inputs (gen : ℕ → ℕ → ℚ) (n : ℕ) (s : Strategy)
    (r : ℕ) : ∀ (iter0 : ℕ) (st : RState) (acc : Matrix (Fin 2) (Fin 2) ℚ),
    (benchPassAux gen n s r iter0 st acc).1.map Prod.fst =
      (List.range r).map fun k => (lpmS gen n (seedR (iter0 + k))).1 := by
  induction r with
  | zero => intro iter0 st acc; simp [benchPassAux]
  | succ m ih =>
      intro iter0 st acc
      simp only [benchPassAux, List.map_cons]
      rw [ih]
      rw [List.range_succ_eq_map, List.map_cons, List.map_map]
      congr 1
      refine List.map_congr_left fun k _ => ?_
      simp only [Function.comp]
      have hk : iter0 + 1 + k = iter0 + (k + 1) := by omega
      rw [hk]

/-- C9: in every `opt` pass of the benchmark, whatever RNG state the
previous pass left behind (`st`) and whatever the accumulator holds, the
sequence of `(X, e_hat)` pairs fed to the estimator is exactly `lpm(n)` run
from seed `iter`, for `iter = 0, ..., Rep-1`: the reseeding with the
replication index makes every strategy see identical data, and two runs
with the same configuration produce identical estimator inputs. -/
theorem c9_seeded_reproducibility (gen : ℕ → ℕ → ℚ) (n Rep : ℕ)
    (s : Strategy) (st : RState) (acc : Matrix (Fin 2) (Fin 2) ℚ) :
    (benchPassAux gen n s Rep 0 st acc).1.map Prod.fst =
      (List.range Rep).map fun k => (lpmS gen n (seedR k)).1 := by
  rw [benchPassAux_inputs]
  simp

/-- Dot product of two flat lists: `zipWith (*)` then sum. -/
def dotL (u v : List ℚ) : ℚ := (List.zipWith (· * ·) u v).sum

/-- Column `j` of a list-of-rows matrix. -/
def colL (X : List (List ℚ)) (j : ℕ) : List ℚ := X.map fun r => r.getD j 0

/-- Column count `X.shape[1]`: number of columns, read off the first row. -/
def numColsL (X : List (List ℚ)) : ℕ := (X.headD []).length

/-- Model of `np.zeros((r, c))`. -/
def zeroLM (r c : ℕ) : List (List ℚ) := List.replicate r (List.replicate c 0)

/-- Elementwise matrix addition (`+=` on conforming arrays). -/
def addLM (A B : List (List ℚ)) : List (List ℚ) :=
  List.zipWith (List.zipWith (· + ·)) A B

/-- Scalar times matrix. -/
def smulLM (c : ℚ) (A : List (List ℚ)) : List (List ℚ) :=
  A.map (List.map fun a => c * a)

/-- Model of `np.outer(r, r)` for a flat row. -/
def outerL (r : List ℚ) : List (List ℚ) := r.map fun a => r.map fun b => a * b

/-- Option `opt = 1` on raw (untyped) inputs: the loop `for i in range(numRows X)`
reads `e_hat[i]`, an `IndexError` iff the residual list is shorter than the
row count; extra residuals are silently ignored. -/
def middleOpt1L (X : List (List ℚ)) (e : List ℚ) :
    Except NumErr (List (List ℚ)) :=
  if e.length < X.length then .error .dimensionMismatch
  else .ok ((List.range X.length).foldl
    (fun acc i =>
      addLM acc (smulLM ((e.getD i 0) ^ 2) (outerL (X.getD i []))))
    (zeroLM (numColsL X) (numColsL X)))

/-- Option `opt = 2` on raw inputs: `np.fill_diagonal(np.zeros((n, n)), e**2)`
recycles `e**2` cyclically (numpy flat-slice assignment), so a length
mismatch raises nothing unless `e` is empty while `X` is not; the two
subsequent matrix products always conform. -/
def middleOpt2L (X : List (List ℚ)) (e : List ℚ) :
    Except NumErr (List (List ℚ)) :=
  if X.length ≠ 0 ∧ e.length = 0 then .error .dimensionMismatch
  else .ok ((List.range (numColsL X)).map fun j =>
    (List.range (numColsL X)).map fun k =>
      ((List.range X.length).map fun i =>
        (e.getD (i % e.length) 0) ^ 2 *
          ((X.getD i []).getD j 0 * (X.getD i []).getD k 0)).sum)

/-- Option `opt = 3` on raw inputs: `diags(e**2)` is `m×m` for `m = len(e)`, and
`X.T @ diags(...)` conforms iff `m = numRows X`. -/
def middleOpt3L (X : List (List ℚ)) (e : List ℚ) :
    Except NumErr (List (List ℚ)) :=
  if e.length ≠ X.length then .error .dimensionMismatch
  else .ok ((List.range (numColsL X)).map fun j =>
    (List.range (numColsL X)).map fun k =>
      ((List.range X.length).map fun i =>
        (e.getD i 0) ^ 2 *
          ((X.getD i []).getD j 0 * (X.getD i []).getD k 0)).sum)

/-- Option `opt = 4` on raw inputs: `np.matrix(X).T * np.matrix(e.reshape(-1, 1))`
conforms iff `len(e) = numRows X`, and then equals the `K×1` column `Xᵀe`. -/
def middleOpt4L (X : List (List ℚ)) (e : List ℚ) :
    Except NumErr (List (List ℚ)) :=
  if e.length ≠ X.length then .error .dimensionMismatch
  else .ok
    (((List.range (numColsL X)).map fun j => dotL (colL X j) e).map fun a =>
      ((List.range (numColsL X)).map fun j => dotL (colL X j) e).map fun b =>
        a * b)

/-- The strategy dispatch on raw inputs. -/
def computeMiddleL (X : List (List ℚ)) (e : List ℚ) :
    Strategy → Except NumErr (List (List ℚ))
  | .elementwiseAccumulation => middleOpt1L X e
  | .denseWeightedProduct => middleOpt2L X e
  | .sparseWeightedProduct => middleOpt3L X e
  | .elementwiseScaledCrossProduct => middleOpt4L X e

/-- Did the computation succeed? -/
def isOkE {ε α : Type} : Except ε α → Bool
  | .ok _ => true
  | .error _ => false

theorem isOkE_ite {ε α : Type} (c : Prop) [Decidable c] (x : ε) (v : α) :
    isOkE (if c then Except.error x else Except.ok v) = true ↔ ¬c := by
  by_cases h : c <;> simp [h, isOkE]

-- the spec's own example: 5 rows, 4 residuals; and 5 rows, 6 residuals
def X5c : List (List ℚ) := [[1, 0], [1, 1], [1, 2], [1, 3], [1, 4]]

def e4c : List ℚ := [1, 1, 1, 1]

def e6c : List ℚ := [1, 1, 1, 1, 1, 1]

/-- C4 (counterexample): with 5 rows and 4 residuals the dense-weighted
strategy does NOT fail (`fill_diagonal` silently recycles the residuals),
and with 5 rows and 6 residuals the elementwise strategy does not fail
either (extra residuals are silently ignored) — contradicting "fails ...
exactly when `len(residuals) != numRows(X)`". -/
theorem c4_counterexample :
    isOkE (computeMiddleL X5c e4c Strategy.denseWeightedProduct) = true ∧
    isOkE (computeMiddleL X5c e6c Strategy.elementwiseAccumulation) = true := by
  exact ⟨rfl, rfl⟩

/-- C4 (amended): the dimension-mismatch behavior is strategy-dependent.
The sparse and "vectorized" strategies fail iff `len(e) ≠ numRows(X)`;
the elementwise strategy fails iff `len(e) < numRows(X)`; the dense
strategy fails only when `e` is empty while `X` is not. -/
theorem c4_dimension_behavior (X : List (List ℚ)) (e : List ℚ) :
    (isOkE (computeMiddleL X e Strategy.elementwiseAccumulation) = true ↔
      X.length ≤ e.length) ∧
    (isOkE (computeMiddleL X e Strategy.denseWeightedProduct) = true ↔
      (X.length = 0 ∨ e.length ≠ 0)) ∧
    (isOkE (computeMiddleL X e Strategy.sparseWeightedProduct) = true ↔
      e.length = X.length) ∧
    (isOkE (computeMiddleL X e Strategy.elementwiseScaledCrossProduct) = true ↔
      e.length = X.length) := by
  refine ⟨?_, ?_, ?_, ?_⟩
  · show isOkE (middleOpt1L X e) = true ↔ _
    unfold middleOpt1L
    rw [isOkE_ite]
    omega
  · show isOkE (middleOpt2L X e) = true ↔ _
    unfold middleOpt2L
    rw [isOkE_ite]
    omega
  · show isOkE (middleOpt3L X e) = true ↔ _
    unfold middleOpt3L
    rw [isOkE_ite]
    omega
  · show isOkE (middleOpt4L X e) = true ↔ _
    unfold middleOpt4L
    rw [isOkE_ite]
    omega

/-- Determinant of a 2×2 matrix, the quantity `np.linalg.inv` tests (a 2×2
input is singular iff this vanishes). -/
def det2 (M : Matrix (Fin 2) (Fin 2) ℚ) : ℚ := M 0 0 * M 1 1 - M 0 1 * M 1 0

/-- Model of `np.linalg.inv` on a nonsingular 2×2 input. -/
def inv2 (M : Matrix (Fin 2) (Fin 2) ℚ) : Matrix (Fin 2) (Fin 2) ℚ :=
  (det2 M)⁻¹ • !![M 1 1, -(M 0 1); -(M 1 0), M 0 0]

/-- Gram matrix `X.T @ X` of a two-column list matrix. -/
def gram2 (X : List (List ℚ)) : Matrix (Fin 2) (Fin 2) ℚ :=
  Matrix.of fun a b => dotL (colL X a.1) (colL X b.1)

/-- The generator `lpm(n)` at the list level: draw `e` and the non-intercept column from
the seeded stream, build `X = hstack(ones, column)` row by row and the 0/1
outcome `Y`, and return `(X, e_hat)` from the OLS fit.  `np.linalg.inv`
raises `LinAlgError` iff `X.T @ X` is singular. -/
def lpmList (gen : ℕ → ℕ → ℚ) (seed n : ℕ) :
    Except NumErr (List (List ℚ) × List ℚ) :=
  let e := (List.range n).map fun i => gen seed i
  let xs := (List.range n).map fun i => gen seed (n + i)
  let X := xs.map fun v => [1, v]
  let Y := List.zipWith
    (fun row ei => if 0 ≤ dotL row [-1, 1] + ei then (1 : ℚ) else 0) X e
  if det2 (gram2 X) = 0 then .error .singularMatrix
  else
    let bv := inv2 (gram2 X) *ᵥ ![dotL (colL X 0) Y, dotL (colL X 1) Y]
    .ok (X, List.zipWith (fun yi row => yi - dotL row [bv 0, bv 1]) Y X)

theorem rows_map_length (xs : List ℚ) :
    ((xs.map fun v => [(1 : ℚ), v]).map List.length) =
      List.replicate xs.length 2 := by
  induction xs with
  | nil => rfl
  | cons a t ih => simp [ih, List.replicate_succ]

theorem rows_map_headQ (xs : List ℚ) :
    ((xs.map fun v => [(1 : ℚ), v]).map List.head?) =
      List.replicate xs.length (some (1 : ℚ)) := by
  induction xs with
  | nil => rfl
  | cons a t ih => simp [ih, List.replicate_succ]

/-- C10 (amended): whenever `lpm(n)` returns at all (`X'X` nonsingular),
the design matrix has exactly `n` rows, each of length 2 with leading entry
1, and the residual list has length `n`. -/
theorem c10_lpm_shapes (gen : ℕ → ℕ → ℚ) (seed n : ℕ) (X : List (List ℚ))
    (eh : List ℚ) (h : lpmList gen seed n = Except.ok (X, eh)) :
    X.map List.length = List.replicate n 2 ∧
      X.map List.head? = List.replicate n (some (1 : ℚ)) ∧
      eh.length = n := by
  simp only [lpmList] at h
  split at h
  · exact absurd h (by simp)
  · rw [Except.ok.injEq, Prod.mk.injEq] at h
    obtain ⟨hX, heh⟩ := h
    subst hX
    subst heh
    refine ⟨?_, ?_, ?_⟩
    · rw [rows_map_length]
      simp
    · rw [rows_map_headQ]
      simp
    · simp

/-- C10 (counterexample): at `n = 1` the 1×2 design matrix always has
singular `X'X`, so `lpm(1)` never returns a pair at all — it fails in the
OLS step — refuting the claim for every `n ≥ 1`.  Shown at the draw stream
`gen seed i = i`. -/
theorem c10_counterexample :
    lpmList (fun _ i => (i : ℚ)) 0 1 = Except.error NumErr.singularMatrix := by
  simp only [lpmList]
  split
  · rfl
  next hdet =>
    exfalso
    apply hdet
    norm_num [det2, gram2, dotL, colL, List.range_succ, Function.comp]

def gC10 : ℕ → ℕ → ℚ := fun _ i => (i : ℚ)

def XC10 : List (List ℚ) := [[1, 2], [1, 3]]

def ehC10 : List ℚ := [0, 0]

/-- C10 witness: at `n = 2` with the draw stream `gen seed i = i`, `lpm`
succeeds and returns the concrete `(X, e_hat)` whose shapes the amended
theorem then certifies. -/
theorem c10_witness :
    lpmList gC10 0 2 = Except.ok (XC10, ehC10) ∧
      (XC10.map List.length = List.replicate 2 2 ∧
        XC10.map List.head? = List.replicate 2 (some (1 : ℚ)) ∧
        ehC10.length = 2) := by
  have h : lpmList gC10 0 2 = Except.ok (XC10, ehC10) := by
    simp only [lpmList, gC10]
    split
    next hdet =>
      exfalso
      norm_num [det2, gram2, dotL, colL, List.range_succ, Function.comp]
        at hdet
    next hdet =>
      norm_num [det2, gram2, inv2, dotL, colL, List.range_succ, Function.comp,
        XC10, ehC10, Matrix.mulVec, Matrix.dotProduct, Fin.sum_univ_two,
        Matrix.smul_apply, Matrix.vecHead, Matrix.vecTail]
  exact ⟨h, c10_lpm_shapes gC10 0 2 XC10 ehC10 h⟩
